import Mathlib

/-!
Shallow embedding of the HTTPPipeline object of the easegress gateway
(`pkg/object/httppipeline/httppipeline.go`) and of the cluster-backed
credential store used by the Validator filter's BasicAuth mode, together
with proofs about spec validation, pipeline construction/inheritance and
request handling.

Modelling conventions:
* A plugin spec document (`map[string]interface{}` in the source) is
  represented by its embedded `PluginMeta` (name and kind): the code paths
  under study consult nothing else of the document.  The per-kind
  jsonschema validation (`v.Validate`) is abstracted as passing, which
  corresponds to plugin kinds whose schema accepts every document.
* The process-wide registry `pluginBook` is passed explicitly as an
  association list from kind to `PluginRecord`.
* Panics recovered into errors by `Spec.Validate`, and panics of `New`,
  are modelled with `Except String`.  The unguarded index
  `hp.runningPlugins[0]` in `Handle` is modelled by an `Option` result.
* Go `map[string]string` values (`jumpIf`) are association lists; Go map
  iteration order is unspecified, the list order stands in for it (the
  proved properties do not depend on the order).
* Plugin instances are identified by natural numbers; wall-clock timing
  and the rendered `time.Duration` string are supplied by an oracle
  function, since they are not computable from the request.
-/

namespace Easegress

/-- LabelEND is the built-in label for jumping of flow (`LabelEND = "END"`
in the source). -/
def LabelEND : String := "END"

/-- PluginMeta is the embedded meta of a plugin spec: its name and kind. -/
structure PluginMeta where
  name : String
  kind : String
  deriving DecidableEq, Repr

/-- PluginRecord is the registry entry of a plugin kind.  Of its fields only
`Results` (the declared result labels) is consulted by the modelled code;
the constructor and default-spec function are modelled in `buildPlugins`. -/
structure PluginRecord where
  results : List String
  deriving DecidableEq, Repr

/-- Flow is one step of the pipeline flow: a plugin name and its jump
table keyed by result label. -/
structure Flow where
  plugin : String
  jumpIf : List (String × String)
  deriving DecidableEq, Repr

/-- Spec describes the HTTPPipeline: object name, flow and plugin specs
(each reduced to its meta, see the module conventions). -/
structure Spec where
  name : String
  flow : List Flow
  plugins : List PluginMeta
  deriving DecidableEq, Repr

/-- Registry lookup `pluginBook[kind]`. -/
def lookupKind (book : List (String × PluginRecord)) (k : String) :
    Option PluginRecord :=
  (book.find? (fun e => e.1 = k)).map (fun e => e.2)

/-- Lookup in the `pluginRecords` map accumulated by `Spec.Validate`,
keyed by plugin name. -/
def lookupRecord (recs : List (String × PluginRecord)) (n : String) :
    Option PluginRecord :=
  (recs.find? (fun e => e.1 = n)).map (fun e => e.2)

/-- validatePluginMeta checks that name and kind are present. -/
def validatePluginMeta (meta : PluginMeta) : Except String Unit :=
  if meta.name.length = 0 then .error "plugin name is required"
  else if meta.kind.length = 0 then .error "plugin kind is required"
  else .ok ()

/-- The per-plugin loop of `Spec.Validate`: meta checks, the reserved-name
check against `LabelEND`, the conflict check against the accumulated
`pluginRecords`, and the registry lookup.  The jsonschema validation of the
plugin document is abstracted as passing. -/
def validatePlugins (book : List (String × PluginRecord)) :
    List PluginMeta → List (String × PluginRecord) →
    Except String (List (String × PluginRecord))
  | [], recs => .ok recs
  | meta :: rest, recs =>
    match validatePluginMeta meta with
    | .error e => .error e
    | .ok () =>
      if meta.name = LabelEND then
        .error ("can't use " ++ LabelEND ++ "(built-in label) for plugin name")
      else if (lookupRecord recs meta.name).isSome then
        .error ("conflict name: " ++ meta.name)
      else
        match lookupKind book meta.kind with
        | none => .error ("plugins: unsuppoted kind " ++ meta.kind)
        | some pr => validatePlugins book rest (recs ++ [(meta.name, pr)])

/-- The repeated-plugin loop of `Spec.Validate` over the flow.  Faithful to
the source: the loop tests membership of `f.Plugin` in the `plugins` map
but never inserts into it, so the accumulator `seen` is passed on
unchanged. -/
def repeatedPluginCheck : List Flow → List String → Except String Unit
  | [], _ => .ok ()
  | f :: rest, seen =>
    if f.plugin ∈ seen then .error ("repeated plugin " ++ f.plugin)
    else repeatedPluginCheck rest seen

/-- One step's jump-table check of the backward scan: each result key must
be among the plugin kind's declared results and each target label among the
currently valid labels. -/
def checkJumpIf (pr : PluginRecord) (valid : List String) :
    List (String × String) → Except String Unit
  | [] => .ok ()
  | (result, label) :: rest =>
    if result ∉ pr.results then
      .error ("result " ++ result ++ " is not declared")
    else if label ∉ valid then
      .error ("label " ++ label ++ " not found")
    else checkJumpIf pr valid rest

/-- The backward scan of `Spec.Validate` over the flow: it seeds the valid
targets with `LabelEND`, walks the flow from the last step to the first,
checks each step's jump table against the labels valid so far, then adds
the step's plugin name.  Processing the tail first models the loop
`for i := len(s.Flow) - 1; i >= 0; i--`.  Returns the final valid-label
list. -/
def scanFlow (recs : List (String × PluginRecord)) :
    List Flow → Except String (List String)
  | [] => .ok [LabelEND]
  | f :: rest =>
    match scanFlow recs rest with
    | .error e => .error e
    | .ok valid =>
      match lookupRecord recs f.plugin with
      | none => .error ("plugin " ++ f.plugin ++ " not found")
      | some pr =>
        match checkJumpIf pr valid f.jumpIf with
        | .error e => .error e
        | .ok () => .ok (f.plugin :: valid)

/-- Spec.Validate.  `pluginsPresent` records whether the raw config document
has a `plugins` key at all (`extractPluginsData` returns nil exactly when it
is absent; an empty list under the key is not nil). -/
def specValidate (book : List (String × PluginRecord)) (pluginsPresent : Bool)
    (s : Spec) : Except String Unit :=
  if !pluginsPresent then .error "validate failed: plugins is required"
  else
    match validatePlugins book s.plugins [] with
    | .error e => .error e
    | .ok recs =>
      match repeatedPluginCheck s.flow [] with
      | .error e => .error e
      | .ok () =>
        match scanFlow recs s.flow with
        | .error e => .error e
        | .ok _ => .ok ()

/-- RunningPlugin pairs a plugin meta with its jump table, its registry
record and its constructed instance (instances are identified by a natural
number). -/
structure RunningPlugin where
  meta : PluginMeta
  jumpIf : List (String × String)
  pr : PluginRecord
  plugin : Nat
  deriving DecidableEq, Repr

/-- HTTPPipeline is the runtime form: the spec name and the ordered
running plugins. -/
structure HTTPPipeline where
  name : String
  runningPlugins : List RunningPlugin
  deriving DecidableEq, Repr

/-- Observable side effects of `New`: a plugin construction (recording the
previous instance passed to the kind's `NewFunc`, if any, and the fresh
instance), a `Close()` call on a dropped predecessor plugin, and the
`handlers.Store` registration of the new pipeline. -/
inductive Event where
  | construct (name : String) (prevInstance : Option Nat) (inst : Nat)
  | close (inst : Nat) (name : String)
  | store (pipelineName : String)
  deriving DecidableEq, Repr

/-- Event.isConstruct holds of construction events. -/
def Event.isConstruct : Event → Prop
  | .construct _ _ _ => True
  | _ => False

/-- Event.isClose holds of close events. -/
def Event.isClose : Event → Prop
  | .close _ _ => True
  | _ => False

/-- getRunningPlugin returns the first running plugin of the pipeline with
the given name, if any. -/
def getRunningPlugin (hp : HTTPPipeline) (n : String) : Option RunningPlugin :=
  hp.runningPlugins.find? (fun rp => rp.meta.name = n)

/-- The first phase of `New`: resolve the running-plugin skeletons.  With
an empty flow every plugin spec is taken in declaration order with an empty
jump table; otherwise each flow step is paired with the first plugin spec
whose meta name matches (`panic` if none matches). -/
def resolveRunning (s : Spec) : Except String (List (PluginMeta × List (String × String))) :=
  if s.flow = [] then
    .ok (s.plugins.map (fun m => (m, [])))
  else
    s.flow.mapM (fun f =>
      match s.plugins.find? (fun ps => ps.name = f.plugin) with
      | none => .error ("flow plugin " ++ f.plugin ++ " not found in plugins")
      | some ps => .ok (ps, f.jumpIf))

/-- The construction loop of `New`: for each skeleton, look the kind up in
the registry, compute the previous-instance argument from the predecessor
pipeline by name, and construct the plugin (fresh instances are numbered
consecutively from `base`).  Returns the running plugins and the
construction events in loop order. -/
def buildPlugins (book : List (String × PluginRecord)) (prev : Option HTTPPipeline)
    (base : Nat) :
    List (PluginMeta × List (String × String)) →
    Except String (List RunningPlugin × List Event)
  | [] => .ok ([], [])
  | (meta, jmp) :: rest =>
    match lookupKind book meta.kind with
    | none => .error ("kind " ++ meta.kind ++ " not found")
    | some pr =>
      let prevInst : Option Nat :=
        match prev with
        | none => none
        | some p => (getRunningPlugin p meta.name).map (fun rp => rp.plugin)
      match buildPlugins book prev (base + 1) rest with
      | .error e => .error e
      | .ok (rps, evs) =>
        .ok (⟨meta, jmp, pr, base⟩ :: rps,
             .construct meta.name prevInst base :: evs)

/-- The close loop of `New`: every running plugin of the predecessor whose
name has no running plugin in the new pipeline gets `Close()` called, in
the predecessor's order. -/
def closeEvents (prev : Option HTTPPipeline) (hp : HTTPPipeline) : List Event :=
  match prev with
  | none => []
  | some p =>
    p.runningPlugins.filterMap (fun pp =>
      if (getRunningPlugin hp pp.meta.name).isNone then
        some (.close pp.plugin pp.meta.name)
      else none)

/-- New creates an HTTPPipeline from a spec, optionally inheriting from a
predecessor pipeline.  After the construction loop, predecessor running
plugins whose name is absent from the new pipeline are closed
(`closeEvents`), and finally the new pipeline is stored in the shared
handler map — in this order, which the event list records. -/
def pipelineNew (book : List (String × PluginRecord)) (s : Spec)
    (prev : Option HTTPPipeline) (base : Nat) :
    Except String (HTTPPipeline × List Event) :=
  match resolveRunning s with
  | .error e => .error e
  | .ok skeletons =>
    match buildPlugins book prev base skeletons with
    | .error e => .error e
    | .ok (rps, cevs) =>
      let hp : HTTPPipeline := ⟨s.name, rps⟩
      .ok (hp, cevs ++ closeEvents prev hp ++ [.store s.name])

/-- PluginStat records the statistics of one executed plugin.  The
duration is kept in its rendered `time.Duration.String()` form, supplied
by the timing oracle. -/
structure PluginStat where
  name : String
  kind : String
  result : String
  duration : String
  deriving DecidableEq, Repr

/-- PluginStat.log renders one stat: the result label, followed by a comma
exactly when it is non-empty, between the name and the duration. -/
def pluginStatLog (ps : PluginStat) : String :=
  let result := if ps.result ≠ "" then ps.result ++ "," else ps.result
  ps.name ++ "(" ++ result ++ ps.duration ++ ")"

/-- PipelineContext.log renders the whole stat sequence, `<empty>` when no
plugin was executed. -/
def pipelineContextLog (stats : List PluginStat) : String :=
  if stats.length = 0 then "<empty>"
  else String.intercalate "->" (stats.map pluginStatLog)

/-- The behavior of the plugins for one request: for each running plugin,
the result label its `Handle` returns and the rendered duration of the
call. -/
def HandleFn : Type := RunningPlugin → String × String

/-- The stat appended for one executed plugin. -/
def statOf (f : HandleFn) (rp : RunningPlugin) : PluginStat :=
  { name := rp.meta.name, kind := rp.meta.kind,
    result := (f rp).1, duration := (f rp).2 }

/-- The `BUG: invalid result %s not in %v` log records produced by one
executed plugin: one exactly when its non-empty result is not among its
kind's declared results. -/
def bugsOf (f : HandleFn) (rp : RunningPlugin) : List (String × List String) :=
  if (f rp).1 ≠ "" ∧ (f rp).1 ∉ rp.pr.results then [((f rp).1, rp.pr.results)]
  else []

/-- The jump-table lookup `jumpIf[result]` of `Handle`. -/
def jumpTarget (rp : RunningPlugin) (result : String) : Option String :=
  (rp.jumpIf.find? (fun e => e.1 = result)).map (fun e => e.2)

/-- The filter walk of `Handle` over the remaining running plugins, given
the current next-plugin name.  Returns the appended stats and the
`BUG: invalid result` log records (result with the declared results it is
missing from).  Each loop iteration: stop on `LabelEND`; skip a plugin
whose name differs from the next name; otherwise execute it, append a
stat, and derive the next name from the result and the jump table. -/
def walk (f : HandleFn) :
    List RunningPlugin → String → List PluginStat × List (String × List String)
  | [], _ => ([], [])
  | rp :: rest, nextName =>
    if nextName = LabelEND then ([], [])
    else if nextName ≠ rp.meta.name then walk f rest nextName
    else
      if (f rp).1 ≠ "" then
        if rp.jumpIf.isEmpty then ([statOf f rp], bugsOf f rp)
        else
          match jumpTarget rp (f rp).1 with
          | none => ([statOf f rp], bugsOf f rp)
          | some target =>
            (statOf f rp :: (walk f rest target).1,
             bugsOf f rp ++ (walk f rest target).2)
      else
        match rest with
        | [] => ([statOf f rp], bugsOf f rp)
        | next :: _ =>
          (statOf f rp :: (walk f rest next.meta.name).1,
           bugsOf f rp ++ (walk f rest next.meta.name).2)

/-- The observable outcome of one `Handle` call: the pipeline context's
stats, the bug logs, and the tags added to the request context. -/
structure HandleOutput where
  stats : List PluginStat
  bugs : List (String × List String)
  tags : List String
  deriving DecidableEq, Repr

/-- Handle handles one request: it reads the first running plugin's name
unconditionally (`hp.runningPlugins[0]` — `none` models the index
out-of-range panic on an empty pipeline), runs the walk, and adds exactly
one `pipeline: ...` tag. -/
def pipelineHandle (hp : HTTPPipeline) (f : HandleFn) : Option HandleOutput :=
  match hp.runningPlugins with
  | [] => none
  | rp0 :: _ =>
    some { stats := (walk f hp.runningPlugins rp0.meta.name).1,
           bugs := (walk f hp.runningPlugins rp0.meta.name).2,
           tags := ["pipeline: " ++
             pipelineContextLog (walk f hp.runningPlugins rp0.meta.name).1] }

/-- Written from the spec's words, for comparison with the source's
rendering: the tag format `pipeline: <filter1>(<result>,<dur>)->…`, each
stat as the name followed by its result label and duration in parentheses,
separated by a comma. -/
def specStatRender (ps : PluginStat) : String :=
  ps.name ++ "(" ++ ps.result ++ "," ++ ps.duration ++ ")"

/-- The full tag under the spec's stated format. -/
def specTagRender (stats : List PluginStat) : String :=
  "pipeline: " ++ String.intercalate "->" (stats.map specStatRender)

/-- The amended per-stat rendering: the comma after the result label
appears exactly when the result is non-empty. -/
def amendedStatRender (ps : PluginStat) : String :=
  ps.name ++ "(" ++ (if ps.result = "" then "" else ps.result ++ ",") ++
    ps.duration ++ ")"

/-- The amended tag: `pipeline: ` followed by `<empty>` when no stat was
recorded, else the amended stat renderings joined by `->`. -/
def amendedTagRender (stats : List PluginStat) : String :=
  "pipeline: " ++
    (if stats = [] then "<empty>"
     else String.intercalate "->" (stats.map amendedStatRender))

/-- Modelled from the spec: the cluster-backed credential store
(`etcdUserCache` of the validator package) — its implementation is not under
`src/`, only its test is.  Spec §4.7: the store holds a configured prefix
and an in-memory `username → bcrypt-hash` map; it is seeded by a prefix
scan of the cluster KV and refreshed by a background watcher subscribed to
the same prefix; if constructed with an empty prefix it is inert: no
cluster calls, and `match` always returns false. -/
structure EtcdUserCache where
  pfx : String
  users : List (String × String)
  deriving DecidableEq, Repr

/-- Modelled from the spec: the cluster operations a store may perform — a
prefix scan seeding the map and a watch subscription on the same prefix. -/
inductive ClusterOp where
  | scan (p : String)
  | watch (p : String)
  deriving DecidableEq, Repr

/-- Modelled from the spec: the cluster operations performed over the
store's lifetime (seeding scan, then watch subscription); none when the
prefix is empty. -/
def etcdOps (c : EtcdUserCache) : List ClusterOp :=
  if c.pfx = "" then [] else [ClusterOp.scan c.pfx, ClusterOp.watch c.pfx]

/-- Modelled from the spec: `match(username, password)` — always false for
an empty prefix; otherwise look the username up and verify the password
against the stored bcrypt hash (`verify` abstracts `bcrypt_verify`). -/
def etcdMatch (verify : String → String → Bool) (c : EtcdUserCache)
    (u pw : String) : Bool :=
  if c.pfx = "" then false
  else
    match (c.users.find? (fun e => e.1 = u)).map (fun e => e.2) with
    | none => false
    | some h => verify pw h

/-! Concrete fixtures used by witnesses and counterexamples: a registry
with the single kind `V` declaring the result label `invalid`, and small
pipelines over it. -/

def prV : PluginRecord := ⟨["invalid"]⟩

def bookV : List (String × PluginRecord) := [("V", prV)]

def metaA : PluginMeta := ⟨"a", "V"⟩

def metaB : PluginMeta := ⟨"b", "V"⟩

def rpA : RunningPlugin := ⟨metaA, [], prV, 0⟩

def rpB : RunningPlugin := ⟨metaB, [], prV, 1⟩

def hpAB : HTTPPipeline := ⟨"pl", [rpA, rpB]⟩

/-- A handle behavior under which plugin `a` rejects. -/
def fInvalidA : HandleFn :=
  fun rp => (if rp.meta.name = "a" then "invalid" else "", "1ms")

/-- A handle behavior under which every plugin proceeds. -/
def fProceed : HandleFn := fun _ => ("", "5ms")

/-- A handle behavior returning an undeclared label. -/
def fWeird : HandleFn := fun _ => ("weird", "2ms")

/-- A plugin of a kind declaring no result labels at all. -/
def rpN : RunningPlugin := ⟨metaA, [], ⟨[]⟩, 0⟩

def hpN : HTTPPipeline := ⟨"pl", [rpN]⟩

/-- Spec with a duplicated flow entry (for the repeated-plugin check). -/
def specDupFlow : Spec := ⟨"pl", [⟨"a", []⟩, ⟨"a", []⟩], [metaA]⟩

/-- Spec whose only jump target names no later flow step. -/
def specBackJump : Spec := ⟨"pl", [⟨"a", [("invalid", "zzz")]⟩], [metaA]⟩

/-- Spec declaring a plugin named `END`. -/
def specEndName : Spec := ⟨"pl", [], [⟨"END", "V"⟩]⟩

/-- Spec with a present-but-empty plugins list. -/
def specNoPlugins : Spec := ⟨"pl", [], []⟩

/-- Spec with empty flow and two plugins, in declaration order. -/
def specAB : Spec := ⟨"pl", [], [metaA, metaB]⟩

/-- Spec keeping only plugin `a` (predecessor drop scenario). -/
def specOnlyA : Spec := ⟨"pl", [], [metaA]⟩

/-- A predecessor pipeline holding instances 7 (name `a`) and 8 (name `b`). -/
def hpPrev : HTTPPipeline := ⟨"pl", [⟨metaA, [], prV, 7⟩, ⟨metaB, [], prV, 8⟩]⟩

/-- The outcome of `Handle` on `hpAB` under `fInvalidA`: only plugin `a`
executes. -/
def outInvA : HandleOutput :=
  ⟨[⟨"a", "V", "invalid", "1ms"⟩], [], ["pipeline: a(invalid,1ms)"]⟩

/-- The outcome of `Handle` on `hpAB` under `fProceed`: both plugins
execute; note the rendering of the empty results. -/
def outProceedAB : HandleOutput :=
  ⟨[⟨"a", "V", "", "5ms"⟩, ⟨"b", "V", "", "5ms"⟩], [],
   ["pipeline: a(5ms)->b(5ms)"]⟩

/-- The outcome of `Handle` on `hpN` under `fWeird`: the undeclared result
is logged as a bug and the walk stops. -/
def outWeirdN : HandleOutput :=
  ⟨[⟨"a", "V", "weird", "2ms"⟩], [("weird", [])], ["pipeline: a(weird,2ms)"]⟩

/-! Helper lemmas. -/

theorem validatePlugins_end_errors (book : List (String × PluginRecord))
    (plugins : List PluginMeta) :
    ∀ recs, (∃ m ∈ plugins, m.name = LabelEND) →
      ∃ e, validatePlugins book plugins recs = .error e := by
  induction plugins with
  | nil =>
    rintro recs ⟨m, hm, -⟩
    exact absurd hm (List.not_mem_nil m)
  | cons m rest ih =>
    rintro recs ⟨m0, hm0, hend⟩
    cases hv : validatePluginMeta m with
    | error e => exact ⟨e, by simp [validatePlugins, hv]⟩
    | ok u =>
      cases u
      by_cases hEnd : m.name = LabelEND
      · exact ⟨"can't use " ++ LabelEND ++ "(built-in label) for plugin name",
          by simp [validatePlugins, hv, hEnd]⟩
      · by_cases hc : (lookupRecord recs m.name).isSome
        · exact ⟨"conflict name: " ++ m.name,
            by simp [validatePlugins, hv, hEnd, hc]⟩
        · cases hk : lookupKind book m.kind with
          | none =>
            exact ⟨"plugins: unsuppoted kind " ++ m.kind,
              by simp [validatePlugins, hv, hEnd, hc, hk]⟩
          | some pr =>
            have hrest : ∃ m1 ∈ rest, m1.name = LabelEND := by
              rcases List.mem_cons.mp hm0 with h | h
              · exact absurd (h ▸ hend) hEnd
              · exact ⟨m0, h, hend⟩
            rcases ih (recs ++ [(m.name, pr)]) hrest with ⟨e, he⟩
            exact ⟨e, by simp [validatePlugins, hv, hEnd, hc, hk, he]⟩

theorem scanFlow_ok_labels (recs : List (String × PluginRecord)) :
    ∀ (flow : List Flow) (v : List String), scanFlow recs flow = .ok v →
      v = flow.map (fun f => f.plugin) ++ [LabelEND] := by
  intro flow
  induction flow with
  | nil =>
    intro v h
    simp only [scanFlow] at h
    cases h
    simp
  | cons f rest ih =>
    intro v h
    cases hs : scanFlow recs rest with
    | error e => simp [scanFlow, hs] at h
    | ok valid =>
      cases hl : lookupRecord recs f.plugin with
      | none => simp [scanFlow, hs, hl] at h
      | some pr =>
        cases hc : checkJumpIf pr valid f.jumpIf with
        | error e => simp [scanFlow, hs, hl, hc] at h
        | ok u =>
          cases u
          simp only [scanFlow, hs, hl, hc] at h
          cases h
          simp [ih valid hs]

theorem checkJumpIf_ok_mem (pr : PluginRecord) (valid : List String) :
    ∀ (pairs : List (String × String)), checkJumpIf pr valid pairs = .ok () →
      ∀ p ∈ pairs, p.1 ∈ pr.results ∧ p.2 ∈ valid := by
  intro pairs
  induction pairs with
  | nil =>
    intro _ p hp
    exact absurd hp (List.not_mem_nil p)
  | cons q rest ih =>
    intro h p hp
    obtain ⟨result, label⟩ := q
    simp only [checkJumpIf] at h
    split at h
    · exact absurd h (by simp)
    · split at h
      · exact absurd h (by simp)
      · rcases List.mem_cons.mp hp with h1 | h1
        · subst h1
          constructor
          · exact not_not.mp (by assumption)
          · exact not_not.mp (by assumption)
        · exact ih h p h1

theorem scanFlow_forward_targets (recs : List (String × PluginRecord)) :
    ∀ (pre : List Flow) (f : Flow) (suf : List Flow) (v : List String),
      scanFlow recs (pre ++ f :: suf) = .ok v →
      ∀ p ∈ f.jumpIf, p.2 = LabelEND ∨ p.2 ∈ suf.map (fun g => g.plugin) := by
  intro pre
  induction pre with
  | nil =>
    intro f suf v h p hp
    simp only [List.nil_append] at h
    cases hs : scanFlow recs suf with
    | error e => simp [scanFlow, hs] at h
    | ok valid =>
      cases hl : lookupRecord recs f.plugin with
      | none => simp [scanFlow, hs, hl] at h
      | some pr =>
        cases hc : checkJumpIf pr valid f.jumpIf with
        | error e => simp [scanFlow, hs, hl, hc] at h
        | ok u =>
          cases u
          have hmem := (checkJumpIf_ok_mem pr valid f.jumpIf hc p hp).2
          rw [scanFlow_ok_labels recs suf valid hs] at hmem
          rcases List.mem_append.mp hmem with h1 | h1
          · exact Or.inr h1
          · exact Or.inl (List.mem_singleton.mp h1)
  | cons g pre' ih =>
    intro f suf v h p hp
    simp only [List.cons_append] at h
    cases hs : scanFlow recs (pre' ++ f :: suf) with
    | error e => simp [scanFlow, hs] at h
    | ok valid => exact ih f suf valid hs p hp

theorem walk_end (f : HandleFn) (rp : RunningPlugin) (rest : List RunningPlugin) :
    walk f (rp :: rest) LabelEND = ([], []) := by
  simp [walk]

theorem walk_skip (f : HandleFn) (rp : RunningPlugin) (rest : List RunningPlugin)
    (n : String) (h1 : n ≠ LabelEND) (h2 : n ≠ rp.meta.name) :
    walk f (rp :: rest) n = walk f rest n := by
  simp [walk, h1, h2]

theorem walk_exec_stop (f : HandleFn) (rp : RunningPlugin)
    (rest : List RunningPlugin) (h1 : rp.meta.name ≠ LabelEND)
    (hres : (f rp).1 ≠ "")
    (hstop : rp.jumpIf.isEmpty ∨ jumpTarget rp (f rp).1 = none) :
    walk f (rp :: rest) rp.meta.name = ([statOf f rp], bugsOf f rp) := by
  rcases hstop with h | h
  · simp [walk, h1, hres, h]
  · by_cases hjmp : rp.jumpIf.isEmpty
    · simp [walk, h1, hres, hjmp]
    · simp [walk, h1, hres, hjmp, h]

theorem walk_exec_jump (f : HandleFn) (rp : RunningPlugin)
    (rest : List RunningPlugin) (target : String)
    (h1 : rp.meta.name ≠ LabelEND) (hres : (f rp).1 ≠ "")
    (hjmp : ¬rp.jumpIf.isEmpty) (hfind : jumpTarget rp (f rp).1 = some target) :
    walk f (rp :: rest) rp.meta.name =
      (statOf f rp :: (walk f rest target).1,
       bugsOf f rp ++ (walk f rest target).2) := by
  simp [walk, h1, hres, hjmp, hfind]

theorem walk_exec_last (f : HandleFn) (rp : RunningPlugin)
    (h1 : rp.meta.name ≠ LabelEND) (hres : (f rp).1 = "") :
    walk f [rp] rp.meta.name = ([statOf f rp], bugsOf f rp) := by
  simp [walk, h1, hres]

theorem walk_exec_next (f : HandleFn) (rp nxt : RunningPlugin)
    (rest2 : List RunningPlugin) (h1 : rp.meta.name ≠ LabelEND)
    (hres : (f rp).1 = "") :
    walk f (rp :: nxt :: rest2) rp.meta.name =
      (statOf f rp :: (walk f (nxt :: rest2) nxt.meta.name).1,
       bugsOf f rp ++ (walk f (nxt :: rest2) nxt.meta.name).2) := by
  simp [walk, h1, hres]

theorem walk_stats_sublist (f : HandleFn) :
    ∀ (l : List RunningPlugin) (n : String),
      ∃ sub, List.Sublist sub l ∧ (walk f l n).1 = sub.map (statOf f) := by
  intro l
  induction l with
  | nil => intro n; exact ⟨[], List.Sublist.refl [], rfl⟩
  | cons rp rest ih =>
    intro n
    by_cases hEnd : n = LabelEND
    · subst hEnd
      exact ⟨[], List.nil_sublist _, by rw [walk_end]; rfl⟩
    · by_cases hname : n = rp.meta.name
      · subst hname
        by_cases hres : (f rp).1 = ""
        · cases hrest : rest with
          | nil =>
            subst hrest
            exact ⟨[rp], by simp, by rw [walk_exec_last f rp hEnd hres]; simp⟩
          | cons nxt rest2 =>
            subst hrest
            rcases ih nxt.meta.name with ⟨sub, hs, he⟩
            refine ⟨rp :: sub, List.Sublist.cons₂ rp hs, ?_⟩
            rw [walk_exec_next f rp nxt rest2 hEnd hres]
            simp [he]
        · cases hfind : jumpTarget rp (f rp).1 with
          | none =>
            refine ⟨[rp], by simp, ?_⟩
            rw [walk_exec_stop f rp rest hEnd hres (Or.inr hfind)]
            simp
          | some target =>
            by_cases hjmp : rp.jumpIf.isEmpty
            · refine ⟨[rp], by simp, ?_⟩
              rw [walk_exec_stop f rp rest hEnd hres (Or.inl hjmp)]
              simp
            · rcases ih target with ⟨sub, hs, he⟩
              refine ⟨rp :: sub, List.Sublist.cons₂ rp hs, ?_⟩
              rw [walk_exec_jump f rp rest target hEnd hres hjmp hfind]
              simp [he]
      · rcases ih n with ⟨sub, hs, he⟩
        refine ⟨sub, List.Sublist.cons rp hs, ?_⟩
        rw [walk_skip f rp rest n hEnd hname]
        exact he

theorem singleton_decomp {α : Type} (a : α) (pre : List α) (st : α)
    (post : List α) (h : [a] = pre ++ st :: post) :
    pre = [] ∧ st = a ∧ post = [] := by
  cases pre with
  | nil =>
    injection h with h1 h2
    exact ⟨rfl, h1.symm, h2.symm⟩
  | cons x pre2 =>
    injection h with h1 h2
    exact absurd h2.symm (by simp)

theorem cons_decomp {α : Type} (a : α) (l : List α) (pre : List α) (st : α)
    (post : List α) (h : a :: l = pre ++ st :: post) :
    (pre = [] ∧ st = a ∧ post = l) ∨
    (∃ pre2, pre = a :: pre2 ∧ l = pre2 ++ st :: post) := by
  cases pre with
  | nil =>
    injection h with h1 h2
    exact Or.inl ⟨rfl, h1.symm, h2.symm⟩
  | cons x pre2 =>
    injection h with h1 h2
    exact Or.inr ⟨pre2, by rw [h1], h2⟩

theorem walk_undeclared_terminates (f : HandleFn) :
    ∀ (l : List RunningPlugin) (n : String),
      (∀ rp ∈ l, ∀ p ∈ rp.jumpIf, p.1 ∈ rp.pr.results) →
      ∀ (pre : List PluginStat) (st : PluginStat) (post : List PluginStat),
      (walk f l n).1 = pre ++ st :: post →
      st.result ≠ "" →
      (∀ rp ∈ l, rp.meta.name = st.name → st.result ∉ rp.pr.results) →
      post = [] ∧ (walk f l n).2 ≠ [] := by
  intro l
  induction l with
  | nil =>
    intro n _ pre st post h _ _
    exact absurd h.symm (by simp [walk])
  | cons rp rest ih =>
    intro n hkeys pre st post h hres hundecl
    have hkeys2 : ∀ q ∈ rest, ∀ p ∈ q.jumpIf, p.1 ∈ q.pr.results :=
      fun q hq => hkeys q (List.mem_cons_of_mem rp hq)
    have hundecl2 : ∀ q ∈ rest, q.meta.name = st.name →
        st.result ∉ q.pr.results :=
      fun q hq => hundecl q (List.mem_cons_of_mem rp hq)
    by_cases hEnd : n = LabelEND
    · subst hEnd
      rw [walk_end] at h
      exact absurd h.symm (by simp)
    · by_cases hname : n = rp.meta.name
      · subst hname
        by_cases hr : (f rp).1 = ""
        · cases rest with
          | nil =>
            rw [walk_exec_last f rp hEnd hr] at h
            rcases singleton_decomp (statOf f rp) pre st post h with ⟨-, hst, -⟩
            rw [hst] at hres
            exact absurd hr hres
          | cons nxt rest2 =>
            rw [walk_exec_next f rp nxt rest2 hEnd hr] at h ⊢
            rcases cons_decomp (statOf f rp) _ pre st post h with
              ⟨-, hst, -⟩ | ⟨pre2, -, hl⟩
            · rw [hst] at hres
              exact absurd hr hres
            · have hrec := ih nxt.meta.name hkeys2 pre2 st post hl hres hundecl2
              refine ⟨hrec.1, fun hc => hrec.2 ?_⟩
              exact (List.append_eq_nil.mp hc).2
        · cases hfind : jumpTarget rp (f rp).1 with
          | none =>
            rw [walk_exec_stop f rp rest hEnd hr (Or.inr hfind)] at h ⊢
            rcases singleton_decomp (statOf f rp) pre st post h with
              ⟨-, hst, hpost⟩
            have hnotin0 := hundecl rp (List.mem_cons_self rp rest)
              (by rw [hst]; rfl)
            rw [hst] at hnotin0
            have hnotin : (f rp).1 ∉ rp.pr.results := hnotin0
            refine ⟨hpost, ?_⟩
            simp [bugsOf, hr, hnotin]
          | some target =>
            by_cases hjmp : rp.jumpIf.isEmpty
            · rw [walk_exec_stop f rp rest hEnd hr (Or.inl hjmp)] at h ⊢
              rcases singleton_decomp (statOf f rp) pre st post h with
                ⟨-, hst, hpost⟩
              have hnotin0 := hundecl rp (List.mem_cons_self rp rest)
                (by rw [hst]; rfl)
              rw [hst] at hnotin0
              have hnotin : (f rp).1 ∉ rp.pr.results := hnotin0
              refine ⟨hpost, ?_⟩
              simp [bugsOf, hr, hnotin]
            · rw [walk_exec_jump f rp rest target hEnd hr hjmp hfind] at h ⊢
              rcases cons_decomp (statOf f rp) _ pre st post h with
                ⟨-, hst, -⟩ | ⟨pre2, -, hl⟩
              · exfalso
                have hnotin0 := hundecl rp (List.mem_cons_self rp rest)
                  (by rw [hst]; rfl)
                rw [hst] at hnotin0
                have hnotin : (f rp).1 ∉ rp.pr.results := hnotin0
                rcases Option.map_eq_some'.mp hfind with ⟨e, hfe, -⟩
                have hmem := List.mem_of_find?_eq_some hfe
                have hkey : e.1 = (f rp).1 := by
                  have := List.find?_some hfe
                  simpa using this
                have hin := hkeys rp (List.mem_cons_self rp rest) e hmem
                rw [hkey] at hin
                exact hnotin hin
              · have hrec := ih target hkeys2 pre2 st post hl hres hundecl2
                refine ⟨hrec.1, fun hc => hrec.2 ?_⟩
                exact (List.append_eq_nil.mp hc).2
      · rw [walk_skip f rp rest n hEnd hname] at h ⊢
        exact ih n hkeys2 pre st post h hres hundecl2

theorem buildPlugins_metas (book : List (String × PluginRecord))
    (prev : Option HTTPPipeline) :
    ∀ (sks : List (PluginMeta × List (String × String))) (base : Nat)
      (rps : List RunningPlugin) (evs : List Event),
      buildPlugins book prev base sks = .ok (rps, evs) →
      rps.map (fun rp => rp.meta) = sks.map (fun sk => sk.1) := by
  intro sks
  induction sks with
  | nil =>
    intro base rps evs h
    simp only [buildPlugins, Except.ok.injEq, Prod.mk.injEq] at h
    rw [← h.1]
    simp
  | cons sk rest ih =>
    intro base rps evs h
    obtain ⟨meta, jmp⟩ := sk
    simp only [buildPlugins] at h
    cases hk : lookupKind book meta.kind with
    | none => simp [hk] at h
    | some pr =>
      simp only [hk] at h
      cases hb : buildPlugins book prev (base + 1) rest with
      | error e => simp [hb] at h
      | ok pe =>
        obtain ⟨rps2, evs2⟩ := pe
        simp only [hb, Except.ok.injEq, Prod.mk.injEq] at h
        rw [← h.1]
        simp only [List.map_cons]
        rw [ih (base + 1) rps2 evs2 hb]

theorem walk_all_proceed (f : HandleFn) :
    ∀ (l : List RunningPlugin) (rp : RunningPlugin),
      (∀ q ∈ rp :: l, q.meta.name ≠ LabelEND) →
      (∀ q ∈ rp :: l, (f q).1 = "") →
      walk f (rp :: l) rp.meta.name = ((rp :: l).map (statOf f), []) := by
  intro l
  induction l with
  | nil =>
    intro rp hEnds hres
    have h1 := hEnds rp (List.mem_cons_self rp [])
    have h2 := hres rp (List.mem_cons_self rp [])
    rw [walk_exec_last f rp h1 h2]
    simp [bugsOf, h2]
  | cons nxt rest2 ih =>
    intro rp hEnds hres
    have h1 := hEnds rp (List.mem_cons_self rp (nxt :: rest2))
    have h2 := hres rp (List.mem_cons_self rp (nxt :: rest2))
    rw [walk_exec_next f rp nxt rest2 h1 h2]
    rw [ih nxt (fun q hq => hEnds q (List.mem_cons_of_mem rp hq))
        (fun q hq => hres q (List.mem_cons_of_mem rp hq))]
    simp [bugsOf, h2]

theorem pluginStatLog_amended (ps : PluginStat) :
    pluginStatLog ps = amendedStatRender ps := by
  by_cases h : ps.result = ""
  · simp [pluginStatLog, amendedStatRender, h]
  · simp [pluginStatLog, amendedStatRender, h]

theorem pipelineContextLog_amended (stats : List PluginStat) :
    "pipeline: " ++ pipelineContextLog stats = amendedTagRender stats := by
  have hfun : pluginStatLog = amendedStatRender := funext pluginStatLog_amended
  by_cases h : stats = []
  · simp [pipelineContextLog, amendedTagRender, h]
  · have hlen : ¬stats.length = 0 := by
      simpa [List.length_eq_zero] using h
    simp [pipelineContextLog, amendedTagRender, h, hlen, hfun]

theorem buildPlugins_construct_mem (book : List (String × PluginRecord))
    (p1 : HTTPPipeline) :
    ∀ (sks : List (PluginMeta × List (String × String))) (base : Nat)
      (rps : List RunningPlugin) (evs : List Event),
      buildPlugins book (some p1) base sks = .ok (rps, evs) →
      ∀ rp ∈ rps,
        Event.construct rp.meta.name
          ((getRunningPlugin p1 rp.meta.name).map (fun q => q.plugin))
          rp.plugin ∈ evs := by
  intro sks
  induction sks with
  | nil =>
    intro base rps evs h rp hrp
    simp only [buildPlugins, Except.ok.injEq, Prod.mk.injEq] at h
    rw [← h.1] at hrp
    exact absurd hrp (List.not_mem_nil rp)
  | cons sk rest ih =>
    intro base rps evs h rp hrp
    obtain ⟨meta, jmp⟩ := sk
    simp only [buildPlugins] at h
    cases hk : lookupKind book meta.kind with
    | none => simp [hk] at h
    | some pr =>
      simp only [hk] at h
      cases hb : buildPlugins book (some p1) (base + 1) rest with
      | error e => simp [hb] at h
      | ok pe =>
        obtain ⟨rps2, evs2⟩ := pe
        simp only [hb, Except.ok.injEq, Prod.mk.injEq] at h
        rw [← h.1] at hrp
        rw [← h.2]
        rcases List.mem_cons.mp hrp with h1 | h1
        · subst h1
          exact List.mem_cons_self _ _
        · exact List.mem_cons_of_mem _ (ih (base + 1) rps2 evs2 hb rp h1)

theorem buildPlugins_all_construct (book : List (String × PluginRecord))
    (prev : Option HTTPPipeline) :
    ∀ (sks : List (PluginMeta × List (String × String))) (base : Nat)
      (rps : List RunningPlugin) (evs : List Event),
      buildPlugins book prev base sks = .ok (rps, evs) →
      ∀ e ∈ evs, e.isConstruct := by
  intro sks
  induction sks with
  | nil =>
    intro base rps evs h e he
    simp only [buildPlugins, Except.ok.injEq, Prod.mk.injEq] at h
    rw [← h.2] at he
    exact absurd he (List.not_mem_nil e)
  | cons sk rest ih =>
    intro base rps evs h e he
    obtain ⟨meta, jmp⟩ := sk
    simp only [buildPlugins] at h
    cases hk : lookupKind book meta.kind with
    | none => simp [hk] at h
    | some pr =>
      simp only [hk] at h
      cases hb : buildPlugins book prev (base + 1) rest with
      | error e2 => simp [hb] at h
      | ok pe =>
        obtain ⟨rps2, evs2⟩ := pe
        simp only [hb, Except.ok.injEq, Prod.mk.injEq] at h
        rw [← h.2] at he
        rcases List.mem_cons.mp he with h1 | h1
        · rw [h1]; trivial
        · exact ih (base + 1) rps2 evs2 hb e h1

theorem closeEvents_all_close (prev : Option HTTPPipeline)
    (hp : HTTPPipeline) : ∀ e ∈ closeEvents prev hp, e.isClose := by
  intro e he
  cases prev with
  | none => exact absurd he (List.not_mem_nil e)
  | some p =>
    simp only [closeEvents] at he
    rcases List.mem_filterMap.mp he with ⟨q, -, hq⟩
    by_cases hc : (getRunningPlugin hp q.meta.name).isNone
    · simp only [hc, if_true] at hq
      injection hq with hq2
      rw [← hq2]
      trivial
    · simp [hc] at hq

theorem closeEvents_count_zero (hp : HTTPPipeline) (nm : String) (inst : Nat) :
    ∀ (l : List RunningPlugin), nm ∉ l.map (fun q => q.meta.name) →
      (l.filterMap (fun q =>
          if (getRunningPlugin hp q.meta.name).isNone then
            some (Event.close q.plugin q.meta.name)
          else none)).count (Event.close inst nm) = 0 := by
  intro l
  induction l with
  | nil => intro _; rfl
  | cons q rest ih =>
    intro hnot
    have hq : q.meta.name ≠ nm := by
      intro hc
      exact hnot (by rw [← hc]; exact List.mem_map_of_mem _ (List.mem_cons_self q rest))
    have hrest : nm ∉ rest.map (fun q => q.meta.name) :=
      fun hc => hnot (List.mem_cons_of_mem _ hc)
    by_cases hc : (getRunningPlugin hp q.meta.name).isNone
    · have hne : Event.close inst nm ≠ Event.close q.plugin q.meta.name := by
        intro hcc
        injection hcc with h1 h2
        exact hq h2.symm
      simp only [List.filterMap_cons, hc, if_true]
      rw [List.count_cons, ih hrest]
      simp only [Nat.zero_add]
      simp [hne]
      exact fun _ h2 => hq h2
    · simp only [List.filterMap_cons, hc, if_false]
      exact ih hrest

theorem closeEvents_count_one (hp : HTTPPipeline) (pp : RunningPlugin) :
    ∀ (l : List RunningPlugin), pp ∈ l →
      (l.map (fun q => q.meta.name)).Nodup →
      (getRunningPlugin hp pp.meta.name).isNone →
      (l.filterMap (fun q =>
          if (getRunningPlugin hp q.meta.name).isNone then
            some (Event.close q.plugin q.meta.name)
          else none)).count (Event.close pp.plugin pp.meta.name) = 1 := by
  intro l
  induction l with
  | nil => intro hmem; exact absurd hmem (List.not_mem_nil pp)
  | cons q rest ih =>
    intro hmem hnd hgone
    rw [List.map_cons, List.nodup_cons] at hnd
    rcases List.mem_cons.mp hmem with h1 | h1
    · subst h1
      simp only [List.filterMap_cons, hgone, if_true]
      rw [List.count_cons]
      rw [closeEvents_count_zero hp pp.meta.name pp.plugin rest hnd.1]
      simp
    · have hq : q.meta.name ≠ pp.meta.name := by
        intro hc
        exact hnd.1 (by rw [hc]; exact List.mem_map_of_mem _ h1)
      have hrec := ih h1 hnd.2 hgone
      have hne : Event.close pp.plugin pp.meta.name ≠
          Event.close q.plugin q.meta.name := by
        intro hcc
        injection hcc with h2 h3
        exact hq h3.symm
      by_cases hc : (getRunningPlugin hp q.meta.name).isNone
      · simp only [List.filterMap_cons, hc, if_true]
        rw [List.count_cons, hrec]
        simp [hne]
        exact fun _ h2 => hq h2
      · simp only [List.filterMap_cons, hc, if_false]
        exact hrec

theorem count_zero_of_all_construct (evs : List Event) (inst : Nat)
    (nm : String) (hall : ∀ e ∈ evs, e.isConstruct) :
    evs.count (Event.close inst nm) = 0 := by
  rw [List.count_eq_zero]
  intro hc
  have := hall _ hc
  exact this

/-! Claim theorems. -/

/-- C3: the repeated-plugin loop of `Spec.Validate` tests membership in a
map into which it never inserts, so a flow listing the same plugin in two
distinct steps passes validation — evaluating the validator at such a spec
returns ok, contradicting the claim that it must fail. -/
theorem validate_accepts_repeated_flow_plugin :
    specValidate bookV true specDupFlow = .ok () := rfl

theorem specValidate_ok_scanFlow (book : List (String × PluginRecord))
    (present : Bool) (s : Spec) (h : specValidate book present s = .ok ()) :
    ∃ recs v, validatePlugins book s.plugins [] = .ok recs ∧
      scanFlow recs s.flow = .ok v := by
  simp only [specValidate] at h
  split at h
  · exact absurd h (by simp)
  · cases hval : validatePlugins book s.plugins [] with
    | error e => simp [hval] at h
    | ok recs =>
      simp only [hval] at h
      cases hrep : repeatedPluginCheck s.flow [] with
      | error e => simp [hrep] at h
      | ok u =>
        cases u
        simp only [hrep] at h
        cases hscan : scanFlow recs s.flow with
        | error e => simp [hscan] at h
        | ok v => exact ⟨recs, v, rfl, hscan⟩

/-- C1: the stats recorded by `Handle` are a forward walk through the
running-plugin list: they are the image under `statOf` (name, kind,
returned label, duration) of a sublist of the running plugins — one stat
per executed plugin, in execution order, and skipped plugins (name not
matching the current next name) contribute nothing. -/
theorem handle_stats_forward_walk (hp : HTTPPipeline) (f : HandleFn)
    (out : HandleOutput) (h : pipelineHandle hp f = some out) :
    ∃ sub, List.Sublist sub hp.runningPlugins ∧
      out.stats = sub.map (statOf f) := by
  cases hrp : hp.runningPlugins with
  | nil => simp [pipelineHandle, hrp] at h
  | cons rp0 rest =>
    simp only [pipelineHandle, hrp, Option.some.injEq] at h
    rcases walk_stats_sublist f (rp0 :: rest) rp0.meta.name with ⟨sub, hs, he⟩
    refine ⟨sub, hs, ?_⟩
    rw [← h]
    exact he

theorem handle_stats_forward_walk_witness :
    ∃ sub, List.Sublist sub hpAB.runningPlugins ∧
      outInvA.stats = sub.map (statOf fInvalidA) :=
  handle_stats_forward_walk hpAB fInvalidA outInvA rfl

/-- C2: `Spec.Validate` rejects every spec in which some flow step carries
a jumpIf target that is neither the sentinel `END` nor the plugin name of a
later flow step: the backward scan seeds the valid targets with `END` and
admits each step's name only after checking that step, so no validated
flow admits a backward or self jump. -/
theorem validate_rejects_backward_jump (book : List (String × PluginRecord))
    (present : Bool) (s : Spec) (pre : List Flow) (f : Flow) (suf : List Flow)
    (result target : String)
    (hflow : s.flow = pre ++ f :: suf)
    (hmem : (result, target) ∈ f.jumpIf)
    (hne : target ≠ LabelEND)
    (hnot : target ∉ suf.map (fun g => g.plugin)) :
    ∃ e, specValidate book present s = .error e := by
  cases hres : specValidate book present s with
  | error e => exact ⟨e, rfl⟩
  | ok u =>
    exfalso
    cases u
    rcases specValidate_ok_scanFlow book present s hres with ⟨recs, v, -, hscan⟩
    rw [hflow] at hscan
    rcases scanFlow_forward_targets recs pre f suf v hscan
        (result, target) hmem with h1 | h1
    · exact hne h1
    · exact hnot h1

theorem validate_rejects_backward_jump_witness :
    ∃ e, specValidate bookV true specBackJump = .error e :=
  validate_rejects_backward_jump bookV true specBackJump []
    ⟨"a", [("invalid", "zzz")]⟩ [] "invalid" "zzz" rfl (by decide) (by decide)
    (by decide)

/-- C5: on a pipeline all of whose jump-table keys are declared result
labels (which `Spec.Validate` guarantees), an executed plugin returning a
non-empty result that is not among its kind's declared results makes its
stat the last one of the walk — no further plugin is executed — and a
`BUG: invalid result` record is logged. -/
theorem undeclared_result_terminates (hp : HTTPPipeline) (f : HandleFn)
    (out : HandleOutput) (pre : List PluginStat) (st : PluginStat)
    (post : List PluginStat)
    (hkeys : ∀ rp ∈ hp.runningPlugins, ∀ p ∈ rp.jumpIf, p.1 ∈ rp.pr.results)
    (h : pipelineHandle hp f = some out)
    (hdec : out.stats = pre ++ st :: post)
    (hres : st.result ≠ "")
    (hundecl : ∀ rp ∈ hp.runningPlugins, rp.meta.name = st.name →
      st.result ∉ rp.pr.results) :
    post = [] ∧ out.bugs ≠ [] := by
  cases hrp : hp.runningPlugins with
  | nil => simp [pipelineHandle, hrp] at h
  | cons rp0 rest =>
    simp only [pipelineHandle, hrp, Option.some.injEq] at h
    rw [← h] at hdec
    rw [hrp] at hkeys hundecl
    have hwalk := walk_undeclared_terminates f (rp0 :: rest) rp0.meta.name
      hkeys pre st post hdec hres hundecl
    refine ⟨hwalk.1, ?_⟩
    rw [← h]
    exact hwalk.2

theorem undeclared_result_terminates_witness :
    ([] : List PluginStat) = [] ∧ outWeirdN.bugs ≠ [] :=
  undeclared_result_terminates hpN fWeird outWeirdN []
    ⟨"a", "V", "weird", "2ms"⟩ [] (by decide) rfl (by decide) (by decide)
    (by decide)

/-- C6 counterexample: on the pipeline built from a spec with empty flow
and two plugins, a request for which the first plugin returns the
non-empty label `invalid` records exactly one stat — the second declared
filter is never executed, so not every filter executes exactly once. -/
theorem empty_flow_early_stop_cex :
    specAB.flow = [] ∧
    pipelineNew bookV specAB none 0 =
      .ok (hpAB, [Event.construct "a" none 0, Event.construct "b" none 1,
        Event.store "pl"]) ∧
    pipelineHandle hpAB fInvalidA = some outInvA ∧
    outInvA.stats.length = 1 ∧ hpAB.runningPlugins.length = 2 ∧
    outInvA.stats.length ≠ hpAB.runningPlugins.length :=
  ⟨rfl, rfl, rfl, rfl, rfl, by decide⟩

/-- C6 (amended): on a pipeline built from a spec whose flow is empty, the
running plugins are the declared plugins in declaration order with empty
jump tables, and when every filter returns the empty result label (and no
filter bears the reserved name `END`), `Handle` executes all of them
exactly once, in declaration order. -/
theorem empty_flow_executes_in_order (book : List (String × PluginRecord))
    (s : Spec) (prev : Option HTTPPipeline) (base : Nat) (hp : HTTPPipeline)
    (evs : List Event) (f : HandleFn) (out : HandleOutput)
    (hflow : s.flow = [])
    (hnew : pipelineNew book s prev base = .ok (hp, evs))
    (hends : ∀ rp ∈ hp.runningPlugins, rp.meta.name ≠ LabelEND)
    (hres : ∀ rp ∈ hp.runningPlugins, (f rp).1 = "")
    (h : pipelineHandle hp f = some out) :
    out.stats = hp.runningPlugins.map (statOf f) ∧
    hp.runningPlugins.map (fun rp => rp.meta) = s.plugins := by
  have hresolve : resolveRunning s = .ok (s.plugins.map (fun m => (m, []))) := by
    simp [resolveRunning, hflow]
  have hmetas : hp.runningPlugins.map (fun rp => rp.meta) = s.plugins := by
    simp only [pipelineNew, hresolve] at hnew
    cases hb : buildPlugins book prev base (s.plugins.map (fun m => (m, []))) with
    | error e => simp [hb] at hnew
    | ok pe =>
      obtain ⟨rps, cevs⟩ := pe
      simp only [hb, Except.ok.injEq, Prod.mk.injEq] at hnew
      have hm := buildPlugins_metas book prev _ base rps cevs hb
      rw [← hnew.1]
      show List.map (fun rp => rp.meta) rps = s.plugins
      rw [hm, List.map_map]
      simp only [Function.comp_def]
      exact List.map_id _
  refine ⟨?_, hmetas⟩
  cases hrp : hp.runningPlugins with
  | nil => simp [pipelineHandle, hrp] at h
  | cons rp0 rest =>
    simp only [pipelineHandle, hrp, Option.some.injEq] at h
    rw [hrp] at hends hres
    rw [← h]
    simp [walk_all_proceed f rest rp0 hends hres]

theorem empty_flow_executes_in_order_witness :
    outProceedAB.stats = hpAB.runningPlugins.map (statOf fProceed) ∧
    hpAB.runningPlugins.map (fun rp => rp.meta) = specAB.plugins :=
  empty_flow_executes_in_order bookV specAB none 0 hpAB
    [Event.construct "a" none 0, Event.construct "b" none 1,
     Event.store "pl"] fProceed outProceedAB rfl rfl (by decide) (by decide)
    rfl

/-- C8 counterexample: the spec's stated stat format
`<name>(<result>,<dur>)` does not match the code for an empty result: the
source renders `a(5ms)` where the stated format gives `a(,5ms)`, so the
attached tag differs from the claimed rendering. -/
theorem log_tag_format_cex :
    pipelineHandle hpAB fProceed = some outProceedAB ∧
    outProceedAB.tags = ["pipeline: a(5ms)->b(5ms)"] ∧
    specTagRender outProceedAB.stats = "pipeline: a(,5ms)->b(,5ms)" ∧
    outProceedAB.tags ≠ [specTagRender outProceedAB.stats] :=
  ⟨rfl, rfl, rfl, by decide⟩

/-- C8 (amended): `Handle` attaches exactly one tag to the request
context: `pipeline: ` followed by `<empty>` when no stat was recorded,
else by the stats in execution order joined by `->`, each rendered as
`name(result,dur)` when its result label is non-empty and `name(dur)`
when it is empty. -/
theorem handle_attaches_one_tag (hp : HTTPPipeline) (f : HandleFn)
    (out : HandleOutput) (h : pipelineHandle hp f = some out) :
    out.tags = [amendedTagRender out.stats] := by
  cases hrp : hp.runningPlugins with
  | nil => simp [pipelineHandle, hrp] at h
  | cons rp0 rest =>
    simp only [pipelineHandle, hrp, Option.some.injEq] at h
    rw [← h]
    show ["pipeline: " ++ pipelineContextLog (walk f (rp0 :: rest) rp0.meta.name).1] =
      [amendedTagRender (walk f (rp0 :: rest) rp0.meta.name).1]
    rw [pipelineContextLog_amended]

theorem handle_attaches_one_tag_witness :
    outInvA.tags = [amendedTagRender outInvA.stats] :=
  handle_attaches_one_tag hpAB fInvalidA outInvA rfl

/-- C4 counterexample: on a concrete reload dropping plugin `b`, the
`Close` on the dropped instance (index 1 of the event trace) happens
before the `handlers.Store` registration (index 2), so the claim that the
close occurs after the pipeline is registered in the shared handler map is
false. -/
theorem new_close_precedes_store_cex :
    pipelineNew bookV specOnlyA (some hpPrev) 10 =
      .ok (⟨"pl", [⟨metaA, [], prV, 10⟩]⟩,
        [Event.construct "a" (some 7) 10, Event.close 8 "b",
         Event.store "pl"]) ∧
    [Event.construct "a" (some 7) 10, Event.close 8 "b",
     Event.store "pl"].get? 1 = some (Event.close 8 "b") ∧
    [Event.construct "a" (some 7) 10, Event.close 8 "b",
     Event.store "pl"].get? 2 = some (Event.store "pl") ∧
    (1 : Nat) < 2 :=
  ⟨rfl, rfl, rfl, by decide⟩

/-- C4 (amended): when `New` builds a pipeline from a predecessor whose
plugin names are distinct, (1) every new running plugin whose name the
predecessor also carries is constructed with the predecessor's instance as
the previous-instance argument, (2) every predecessor plugin whose name is
absent from the new pipeline is closed exactly once, and (3) the closes
happen after all constructions but before the `handlers.Store`
registration of the new pipeline. -/
theorem new_inheritance_close_order (book : List (String × PluginRecord))
    (s : Spec) (p1 : HTTPPipeline) (base : Nat) (hp : HTTPPipeline)
    (evs : List Event)
    (hnew : pipelineNew book s (some p1) base = .ok (hp, evs))
    (hnd : (p1.runningPlugins.map (fun q => q.meta.name)).Nodup) :
    (∀ rp ∈ hp.runningPlugins, ∀ pp,
        getRunningPlugin p1 rp.meta.name = some pp →
        Event.construct rp.meta.name (some pp.plugin) rp.plugin ∈ evs) ∧
    (∀ pp ∈ p1.runningPlugins, (getRunningPlugin hp pp.meta.name).isNone →
        evs.count (Event.close pp.plugin pp.meta.name) = 1) ∧
    (∃ cs ks, evs = cs ++ ks ++ [Event.store s.name] ∧
        (∀ e ∈ cs, e.isConstruct) ∧ (∀ e ∈ ks, e.isClose)) := by
  cases hr : resolveRunning s with
  | error e => simp [pipelineNew, hr] at hnew
  | ok sks =>
    simp only [pipelineNew, hr] at hnew
    cases hb : buildPlugins book (some p1) base sks with
    | error e => simp [hb] at hnew
    | ok pe =>
      obtain ⟨rps, cevs⟩ := pe
      simp only [hb, Except.ok.injEq, Prod.mk.injEq] at hnew
      obtain ⟨hhp, hevs⟩ := hnew
      subst hhp
      have hall := buildPlugins_all_construct book (some p1) sks base rps cevs hb
      refine ⟨?_, ?_, ?_⟩
      · intro rp hrp pp hpp
        have hm := buildPlugins_construct_mem book p1 sks base rps cevs hb rp hrp
        rw [hpp] at hm
        rw [← hevs]
        exact List.mem_append_left _ (List.mem_append_left _ hm)
      · intro pp hpp hgone
        rw [← hevs, List.count_append, List.count_append]
        rw [count_zero_of_all_construct cevs pp.plugin pp.meta.name hall]
        have hzero : [Event.store s.name].count
            (Event.close pp.plugin pp.meta.name) = 0 := by
          simp [List.count_cons]
        rw [hzero]
        have hone : (closeEvents (some p1) ⟨s.name, rps⟩).count
            (Event.close pp.plugin pp.meta.name) = 1 := by
          simp only [closeEvents]
          exact closeEvents_count_one ⟨s.name, rps⟩ pp p1.runningPlugins hpp
            hnd hgone
        rw [hone]
      · refine ⟨cevs, closeEvents (some p1) ⟨s.name, rps⟩, ?_, ?_, ?_⟩
        · rw [← hevs]
        · exact hall
        · exact closeEvents_all_close (some p1) ⟨s.name, rps⟩

theorem new_inheritance_close_order_witness :
    Event.construct "a" (some 7) 10 ∈
      [Event.construct "a" (some 7) 10, Event.close 8 "b",
       Event.store "pl"] ∧
    [Event.construct "a" (some 7) 10, Event.close 8 "b",
     Event.store "pl"].count (Event.close 8 "b") = 1 := by
  have H := new_inheritance_close_order bookV specOnlyA hpPrev 10
    ⟨"pl", [⟨metaA, [], prV, 10⟩]⟩
    [Event.construct "a" (some 7) 10, Event.close 8 "b", Event.store "pl"]
    rfl (by decide)
  exact ⟨H.1 ⟨metaA, [], prV, 10⟩ (by decide) ⟨metaA, [], prV, 7⟩ rfl,
    H.2.1 ⟨metaB, [], prV, 8⟩ (by decide) rfl⟩

/-- C9: a cluster-backed credential store constructed with an empty prefix
is inert: `match` returns false for every username and password, and no
cluster operations (neither the seeding prefix scan nor the watch
subscription) are performed. -/
theorem empty_prefix_store_inert (verify : String → String → Bool)
    (c : EtcdUserCache) (h : c.pfx = "") :
    (∀ u pw, etcdMatch verify c u pw = false) ∧ etcdOps c = [] := by
  constructor
  · intro u pw
    simp [etcdMatch, h]
  · simp [etcdOps, h]

theorem empty_prefix_store_inert_witness :
    etcdMatch (fun _ _ => true) ⟨"", [("doge", "hash")]⟩ "doge" "dogepw" =
      false ∧
    etcdOps ⟨"", [("doge", "hash")]⟩ = [] :=
  ⟨(empty_prefix_store_inert (fun _ _ => true) ⟨"", [("doge", "hash")]⟩
      rfl).1 "doge" "dogepw",
   (empty_prefix_store_inert (fun _ _ => true) ⟨"", [("doge", "hash")]⟩
      rfl).2⟩

/-- C7: a spec in which some plugin's name equals the sentinel `END`
(case-sensitive) is always rejected by `Spec.Validate`. -/
theorem validate_rejects_end_plugin_name (book : List (String × PluginRecord))
    (present : Bool) (s : Spec) (hend : ∃ m ∈ s.plugins, m.name = LabelEND) :
    ∃ e, specValidate book present s = .error e := by
  cases present with
  | false => exact ⟨"validate failed: plugins is required", rfl⟩
  | true =>
    rcases validatePlugins_end_errors book s.plugins [] hend with ⟨e, he⟩
    exact ⟨e, by simp [specValidate, he]⟩

theorem validate_rejects_end_plugin_name_witness :
    ∃ e, specValidate bookV true specEndName = .error e :=
  validate_rejects_end_plugin_name bookV true specEndName (by decide)

/-- C10: `Handle` reads `hp.runningPlugins[0]` before the walk, so it
panics (modelled by `none`) on a pipeline with no running plugins; yet a
spec whose `plugins` key is present but empty passes `Spec.Validate` and
`New` builds exactly such a pipeline from it. -/
theorem handle_empty_pipeline_panics (hp : HTTPPipeline) (f : HandleFn)
    (hempty : hp.runningPlugins = []) :
    specValidate bookV true specNoPlugins = .ok () ∧
    pipelineNew bookV specNoPlugins none 0 =
      .ok (⟨"pl", []⟩, [Event.store "pl"]) ∧
    pipelineHandle hp f = none := by
  refine ⟨rfl, rfl, ?_⟩
  simp [pipelineHandle, hempty]

theorem handle_empty_pipeline_panics_witness :
    specValidate bookV true specNoPlugins = .ok () ∧
    pipelineNew bookV specNoPlugins none 0 =
      .ok (⟨"pl", []⟩, [Event.store "pl"]) ∧
    pipelineHandle ⟨"pl", []⟩ fProceed = none :=
  handle_empty_pipeline_panics ⟨"pl", []⟩ fProceed rfl

end Easegress
